import Mathlib

/-!
Verification of the RDB-debugger core (ptrace-based x86-64 debugger).

This file shallowly embeds the data model and operations of the three source
files `inferior.rs`, `debugger.rs` and `debugger_command.rs`:

* the tracee's word-granular address space and `Inferior::write_byte`
  (read word, splice one byte, write word back, return the replaced byte);
* the breakpoint registry (`HashMap<usize, Breakpoint>`) and the arming loop
  of `Inferior::new`;
* the repair phase of `Inferior::cont`;
* `Debugger::parse_address`, the `Break` command, `print_nearby_line`,
  `print_child_status` and `Inferior::print_backtrace`.

Kernel interactions (`waitpid`, `fork`/`exec`, `ptrace` register access,
`ptrace` peeks) are modelled as explicit oracle inputs; the tracee's memory is
a partial map from word-aligned addresses to 64-bit words, with `none`
standing for an address at which `ptrace` read/write fails.
-/

namespace RDB

/-- Tracee address space at `ptrace` word granularity: a partial map from a
word-aligned address to the 64-bit word stored there.  `none` models an
address where `PTRACE_PEEKDATA` / `PTRACE_POKEDATA` fails with an error. -/
abbrev Mem := Nat → Option Nat

/-- Source `align_addr_to_word` (inferior.rs): `addr & (-(8isize) as usize)`,
i.e. bitwise AND with `0xFFFF_FFFF_FFFF_FFF8`. -/
def align_addr_to_word (addr : Nat) : Nat :=
  addr &&& 0xFFFFFFFFFFFFFFF8

/-- Source `Inferior::write_byte` (inferior.rs): read the word containing
`addr`, extract the byte at `addr`'s offset, splice `val` in, write the word
back, and return the extracted byte.  The bitwise `!` of Rust's `u64` is
modelled as XOR with `2 ^ 64 - 1`.  A failing `ptrace` word read (unmapped
aligned address) makes the call fail, modelling the propagated `nix::Error`. -/
def write_byte (mem : Mem) (addr : Nat) (val : Nat) : Option (Mem × Nat) :=
  let aligned_addr := align_addr_to_word addr
  let byte_offset := addr - aligned_addr
  match mem aligned_addr with
  | none => none
  | some word =>
      let orig_byte := (word >>> (8 * byte_offset)) &&& 0xff
      let masked_word := word &&& ((2 ^ 64 - 1) ^^^ (0xff <<< (8 * byte_offset)))
      let updated_word := masked_word ||| (val <<< (8 * byte_offset))
      some (fun a => if a = aligned_addr then some updated_word else mem a, orig_byte)

/-- Observation: the byte the tracee holds at `addr`, read out of the
containing aligned word (the same extraction `write_byte` performs). -/
def readByte (mem : Mem) (addr : Nat) : Option Nat :=
  (mem (align_addr_to_word addr)).map
    (fun w => (w >>> (8 * (addr - align_addr_to_word addr))) &&& 0xff)

/-- Well-formedness: every stored word fits in 64 bits (`u64`). -/
def MemWf (mem : Mem) : Prop :=
  ∀ a w, mem a = some w → w < 2 ^ 64

/-- Extraction of the byte at offset `off` of word `w`, as in the source. -/
def extract_byte (w off : Nat) : Nat :=
  (w >>> (8 * off)) &&& 0xff

/-- Splicing byte `v` at offset `off` into word `w`, as in the source. -/
def splice_word (w off v : Nat) : Nat :=
  (w &&& ((2 ^ 64 - 1) ^^^ (0xff <<< (8 * off)))) ||| (v <<< (8 * off))

/-- Source `Breakpoint` (debugger.rs): the address of the breakpoint and the
original byte replaced by the trap opcode (`orig_byte` is a `u8`). -/
structure Breakpoint where
  addr : Nat
  orig_byte : Nat
deriving DecidableEq, Repr

/-- The breakpoint registry, `HashMap<usize, Breakpoint>` in the source,
modelled as an association list from address to record.  The `HashMap`
invariant of at most one record per key is carried as a `keys_nodup`
hypothesis where a proof needs it. -/
abbrev Registry := List (Nat × Breakpoint)

/-- Every registry key fits in a `usize`. -/
def keys_lt (reg : Registry) : Prop := ∀ p ∈ reg, p.1 < 2 ^ 64

/-- The `HashMap` key-uniqueness invariant. -/
def keys_nodup (reg : Registry) : Prop := (reg.map Prod.fst).Nodup

/-- Source `HashMap::insert`: replace any record at the key, else add one. -/
def rInsert (reg : Registry) (k : Nat) (v : Breakpoint) : Registry :=
  (k, v) :: reg.filter (fun p => p.1 != k)

/-- Source `breakpoints.get_mut(&b).unwrap().orig_byte = orig_instr` in
`Inferior::new`: update the `orig_byte` field of the record at key `k`. -/
def set_orig_byte (reg : Registry) (k : Nat) (b : Nat) : Registry :=
  reg.map (fun p => if p.1 = k then (p.1, ⟨p.2.addr, b⟩) else p)

/-- One iteration of the breakpoint-arming loop of `Inferior::new`
(inferior.rs lines 71-81): write the trap byte `0xcc` at the breakpoint
address; on success record the returned byte as the new `orig_byte`; on
failure report and leave state unchanged. -/
def arm_step (st : Mem × Registry) (b : Nat × Breakpoint) : Mem × Registry :=
  match write_byte st.1 b.1 0xcc with
  | some (m2, orig_instr) => (m2, set_orig_byte st.2 b.1 orig_instr)
  | none => st

/-- The whole arming loop of `Inferior::new`: iterate the cloned key set of
the registry, threading the tracee memory and the registry being updated. -/
def arm_all (mem : Mem) (breakpoints : Registry) : Mem × Registry :=
  breakpoints.foldl arm_step (mem, breakpoints)

/-- Signals as the model needs them: the initial trap, and anything else. -/
inductive Signal where
  | SIGTRAP : Signal
  | other : Nat → Signal
deriving DecidableEq, Repr

/-- Source `Status` (inferior.rs): status of the child process. -/
inductive Status where
  | Stopped : Signal → Nat → Status
  | Exited : Int → Status
  | Signaled : Signal → Status
deriving DecidableEq, Repr

/-- Source `Inferior::new` (inferior.rs lines 49-89).  The OS interactions
are oracle inputs: `spawn_ok` is whether `cmd.spawn()` succeeded,
`wait_result` is the outcome of the single initial `wait` (`none` models a
`waitpid`/`getregs` error), and `mem` is the fresh tracee's address space.
If the wait reports `Stopped` with `SIGTRAP`, every registered breakpoint is
armed via the loop modelled by `arm_all` and the tracee (its memory and the
updated registry) is returned; in every other case the result is `none`. -/
def inferior_new (spawn_ok : Bool) (wait_result : Option Status) (mem : Mem)
    (breakpoints : Registry) : Option (Mem × Registry) :=
  if spawn_ok then
    match wait_result with
    | some (Status.Stopped Signal.SIGTRAP _) => some (arm_all mem breakpoints)
    | _ => none
  else none

/-- The repair phase of `Inferior::cont` (inferior.rs lines 101-126), up to
and including the state handed to the final `ptrace::cont`.  `rip` is the
instruction pointer read from the stopped tracee.  The source computes
`rip - 1` on a `usize` with no zero check; release-mode wrapping is modelled
as `(rip + 2 ^ 64 - 1) % 2 ^ 64` (a debug build aborts on `rip = 0`).  If the
resulting address is registered, the original byte is written back (a failing
write propagates the error, modelled by `none`); the instruction-pointer
rewind, single step and wait do not touch code bytes and are elided.  The
returned flag records whether the repair branch ran.  The source takes
`breakpoints` by shared reference, so the registry cannot be updated here and
no trap byte is ever written back: the memory in the result is exactly what
the final `ptrace::cont` resumes with. -/
def cont_repair (mem : Mem) (breakpoints : Registry) (rip : Nat) :
    Option (Mem × Bool) :=
  let interrupted_instru_addr := (rip + (2 ^ 64 - 1)) % 2 ^ 64
  match List.lookup interrupted_instru_addr breakpoints with
  | some breakpoint =>
      match write_byte mem breakpoint.addr breakpoint.orig_byte with
      | some (mem2, _) => some (mem2, true)
      | none => none
  | none => some (mem, false)

/-- Source `Debugger::run`, `Break` command, no-tracee case (debugger.rs
lines 172-181): insert a record with the placeholder `orig_byte: 0`. -/
def break_no_tracee (reg : Registry) (parsed_addr : Nat) : Registry :=
  rInsert reg parsed_addr ⟨parsed_addr, 0⟩

/-- Source `Debugger::run`, `Break` command, tracee-exists case (debugger.rs
lines 154-168): write the trap byte into the stopped tracee; only on success
insert a record carrying the returned original byte; on failure print and
leave both the tracee and the registry untouched. -/
def break_with_tracee (mem : Mem) (reg : Registry) (parsed_addr : Nat) :
    Mem × Registry :=
  match write_byte mem parsed_addr 0xcc with
  | some (m2, orig_byte) => (m2, rInsert reg parsed_addr ⟨parsed_addr, orig_byte⟩)
  | none => (mem, reg)

/-- A resolved source position as the DWARF surface returns it (`Line` in the
external `dwarf_data` crate): file name and 1-based line number. -/
structure Line where
  file : String
  number : Nat
deriving DecidableEq, Repr

/-- The read-only query surface of the parsed DWARF data (`DwarfData`)
consumed by `Debugger` and `Inferior`.  The parser itself is an external
collaborator; only its lookup functions matter here, so they are fields. -/
structure DwarfData where
  get_line_from_addr : Nat → Option Line
  get_function_from_addr : Nat → Option String
  get_addr_for_line : Option String → Nat → Option Nat
  get_addr_for_function : Option String → String → Option Nat

/-- Rust `str::to_lowercase`, restricted to the ASCII mapping the breakpoint
grammar exercises. -/
def to_lowercase (s : String) : String :=
  ⟨s.data.map Char.toLower⟩

/-- Rust `str::starts_with` on string literals, via the character list. -/
def begins_with (p s : List Char) : Bool :=
  match p, s with
  | [], _ => true
  | _ :: _, [] => false
  | c :: p2, d :: s2 => c == d && begins_with p2 s2

/-- Rust `&addr[3..]`: byte slicing, which for the ASCII `*0x`/`*0X` head
coincides with dropping three characters. -/
def str_drop (s : String) (n : Nat) : String :=
  ⟨s.data.drop n⟩

/-- Rust `str::trim`, via the character list. -/
def str_trim (s : String) : String :=
  ⟨((s.data.dropWhile Char.isWhitespace).reverse.dropWhile
      Char.isWhitespace).reverse⟩

/-- Rust `char::to_digit(16)`. -/
def to_digit_16 (c : Char) : Option Nat :=
  if '0' ≤ c ∧ c ≤ '9' then some (c.toNat - '0'.toNat)
  else if 'a' ≤ c ∧ c ≤ 'f' then some (c.toNat - 'a'.toNat + 10)
  else if 'A' ≤ c ∧ c ≤ 'F' then some (c.toNat - 'A'.toNat + 10)
  else none

/-- Rust `char::to_digit(10)`. -/
def to_digit_10 (c : Char) : Option Nat :=
  if '0' ≤ c ∧ c ≤ '9' then some (c.toNat - '0'.toNat)
  else none

/-- Accumulate digits left to right; any non-digit fails the parse. -/
def digits_fold (digit : Char → Option Nat) (radix : Nat) :
    List Char → Nat → Option Nat
  | [], acc => some acc
  | c :: cs, acc =>
      match digit c with
      | some d => digits_fold digit radix cs (acc * radix + d)
      | none => none

/-- Rust `usize::from_str_radix(s, 16)`: an optional leading `+`, then at
least one hexadecimal digit; a value not fitting a `usize` is an error. -/
def from_str_radix_16 (s : String) : Option Nat :=
  let ds := match s.data with
            | '+' :: rest => rest
            | l => l
  if ds.isEmpty then none
  else
    match digits_fold to_digit_16 16 ds 0 with
    | some n => if n < 2 ^ 64 then some n else none
    | none => none

/-- Rust `s.parse::<usize>()`: an optional leading `+`, then at least one
decimal digit; a value not fitting a `usize` is an error. -/
def parse_usize (s : String) : Option Nat :=
  let ds := match s.data with
            | '+' :: rest => rest
            | l => l
  if ds.isEmpty then none
  else
    match digits_fold to_digit_10 10 ds 0 with
    | some n => if n < 2 ^ 64 then some n else none
    | none => none

/-- Source `Debugger::parse_address` (debugger.rs lines 226-239): lowercase
the token and test for the `*0x` head, in which case parse the rest of the
original token in base 16; else, if the token parses as a decimal `usize`,
resolve it as a line number through the oracle; else resolve the trimmed
token as a function name through the oracle.  The source calls
`addr.parse::<usize>()` twice (`is_ok` then `unwrap`); the single `match`
here is the same computation. -/
def parse_address (dd : DwarfData) (addr : String) : Option Nat :=
  if begins_with "*0x".data (to_lowercase addr).data then
    from_str_radix_16 (str_drop addr 3)
  else
    match parse_usize addr with
    | some n => dd.get_addr_for_line none n
    | none => dd.get_addr_for_function none (str_trim addr)

/-- Source `Debugger::run`, `Break` command (debugger.rs lines 143-182):
parse the spec token; on failure print and change nothing; otherwise arm
immediately if a tracee exists, else defer with a placeholder record. -/
def break_command (dd : DwarfData) (mem : Mem) (has_inferior : Bool)
    (reg : Registry) (tok : String) : Mem × Registry :=
  match parse_address dd tok with
  | none => (mem, reg)
  | some parsed_addr =>
      if has_inferior then break_with_tracee mem reg parsed_addr
      else (mem, break_no_tracee reg parsed_addr)

/-- Source `Debugger::print_nearby_line` (debugger.rs lines 240-248): index
the 0-based vector of source-file lines at `line_num - 1`, `line_num` and
`line_num + 1`, printing those that exist.  The returned list is the lines
printed, in order.  (For `line_num = 0` the source's `usize` subtraction
would abort a debug build; line numbers from DWARF are 1-based.) -/
def print_nearby_line (target_lines : List String) (line_num : Nat) :
    List String :=
  [line_num - 1, line_num, line_num + 1].filterMap
    (fun l => target_lines.get? l)

/-- The 1-based source-line numbering the specification speaks in: source
line `k` of the file is entry `k - 1` of the stored vector. -/
def source_line (target_lines : List String) (k : Nat) : Option String :=
  target_lines.get? (k - 1)

/-- What `Debugger::print_child_status` (debugger.rs lines 254-276) prints,
as structured data. -/
inductive Report where
  | exited : Int → Report
  | stopped_unresolved : Signal → Report
  | stopped : Signal → Line → String → List String → Report
  | signaled : Signal → Report
deriving DecidableEq, Repr

/-- Source `Debugger::print_child_status`: on `Stopped`, when both oracle
lookups at the stop address resolve, report the line, the enclosing function
and the nearby-lines window. -/
def print_child_status (dd : DwarfData) (target_lines : List String)
    (s : Status) : Report :=
  match s with
  | Status.Exited code => Report.exited code
  | Status.Stopped sig rip =>
      match dd.get_line_from_addr rip, dd.get_function_from_addr rip with
      | some line, some func_name =>
          Report.stopped sig line func_name
            (print_nearby_line target_lines line.number)
      | _, _ => Report.stopped_unresolved sig
  | Status.Signaled sig => Report.signaled sig

/-- Outcome of a `print_backtrace` walk: the frames printed so far, ended by
normal termination at `main`, a surfaced `ptrace` read error, the process
abort caused by `.unwrap()` on an unresolved address, or exhausted fuel
(the source loop would still be running). -/
inductive BtOutcome where
  | ok : List (String × Line) → BtOutcome
  | err : List (String × Line) → BtOutcome
  | panicked : List (String × Line) → BtOutcome
  | fuel_out : List (String × Line) → BtOutcome
deriving DecidableEq, Repr

/-- Source `Inferior::print_backtrace` (inferior.rs lines 156-176).  `peek`
models `ptrace::read` of the tracee (`none` = `Err`).  Each iteration calls
`get_line_from_addr(..).unwrap()` and `get_function_from_addr(..).unwrap()`
-- an unresolved address aborts the process -- prints the frame, stops if
the function is `main`, and otherwise loads the saved return address from
`base_ptr + 8` and the saved frame pointer from `base_ptr`. -/
def print_backtrace (dd : DwarfData) (peek : Nat → Option Nat) :
    Nat → Nat → Nat → List (String × Line) → BtOutcome
  | 0, _, _, acc => BtOutcome.fuel_out acc
  | fuel + 1, instruction_ptr, base_ptr, acc =>
      match dd.get_line_from_addr instruction_ptr with
      | none => BtOutcome.panicked acc
      | some addr =>
          match dd.get_function_from_addr instruction_ptr with
          | none => BtOutcome.panicked acc
          | some func_name =>
              let acc2 := acc ++ [(func_name, addr)]
              if func_name = "main" then BtOutcome.ok acc2
              else
                match peek (base_ptr + 8) with
                | none => BtOutcome.err acc2
                | some ip2 =>
                    match peek base_ptr with
                    | none => BtOutcome.err acc2
                    | some bp2 => print_backtrace dd peek fuel ip2 bp2 acc2

/-- Demo tracee memory: one mapped word at address 4096, holding the trap
byte `0xCC` in its lowest byte. -/
def demoMem : Mem := fun a => if a = 4096 then some 0xCC else none

/-- Demo registry: one breakpoint at 4096 whose saved original byte is a
`nop` (0x90). -/
def demoBps : Registry := [(4096, ⟨4096, 0x90⟩)]

/-- Demo memory for the wrap-around scenario: the word containing address
`2 ^ 64 - 1` is mapped, with `0xCC` in its highest byte. -/
def wrapMem : Mem :=
  fun a => if a = 18446744073709551608 then some 0xCC00000000000000 else none

/-- Demo registry holding a breakpoint at the largest `usize` address. -/
def wrapBps : Registry :=
  [(18446744073709551615, ⟨18446744073709551615, 0x90⟩)]

/-- Memory mapping only address 0; address 8 is unwritable. -/
def zeroOnlyMem : Mem := fun a => if a = 0 then some 0 else none

/-- A registry with an unarmed placeholder record at the unwritable
address 8. -/
def unarmedReg : Registry := [(8, ⟨8, 0⟩)]

/-- Memory where every `ptrace` access fails. -/
def deadMem : Mem := fun _ => none

/-- Demo DWARF surface: no lookup at any address resolves; line 17 maps to
address 4242 and function `foo` to address 5150. -/
def demoDwarf : DwarfData :=
  ⟨fun _ => none, fun _ => none,
   fun _ n => if n = 17 then some 4242 else none,
   fun _ f => if f = "foo" then some 5150 else none⟩

/-- Demo source file contents, as the vector read from `<target>.c`. -/
def demoLines : List String := ["L1", "L2", "L3", "L4"]

/-- Demo DWARF surface resolving address 100 to line 2 of `t.c`, inside
`main`. -/
def lineDwarf : DwarfData :=
  ⟨fun a => if a = 100 then some ⟨"t.c", 2⟩ else none,
   fun a => if a = 100 then some "main" else none,
   fun _ _ => none, fun _ _ => none⟩

/-- DWARF surface for a three-frame backtrace `main → a → b`: instruction
pointers 10, 20, 30 belong to `b`, `a` and `main` respectively. -/
def btDwarf : DwarfData :=
  ⟨fun a => if a = 10 then some ⟨"t.c", 9⟩
            else if a = 20 then some ⟨"t.c", 5⟩
            else if a = 30 then some ⟨"t.c", 2⟩ else none,
   fun a => if a = 10 then some "b"
            else if a = 20 then some "a"
            else if a = 30 then some "main" else none,
   fun _ _ => none, fun _ _ => none⟩

/-- Stack of the three-frame backtrace demo: frame of `b` at base pointer
1000 (saved return address 20, saved frame pointer 2000), frame of `a` at
2000 (saved return address 30, saved frame pointer 3000). -/
def btPeek : Nat → Option Nat :=
  fun a => if a = 1008 then some 20
           else if a = 1000 then some 2000
           else if a = 2008 then some 30
           else if a = 2000 then some 3000 else none

theorem high_testBit_eq_false (x n j : Nat) (hx : x < 2 ^ n) (hj : n ≤ j) :
    x.testBit j = false :=
  Nat.testBit_lt_two_pow
    (lt_of_lt_of_le hx (Nat.pow_le_pow_right (by norm_num) hj))

theorem align_eq_sub_mod (a : Nat) (ha : a < 2 ^ 64) :
    align_addr_to_word a = a - a % 8 := by
  have h8 : a - a % 8 = (a >>> 3) <<< 3 := by
    rw [Nat.shiftRight_eq_div_pow, Nat.shiftLeft_eq]
    have := Nat.div_add_mod a 8
    omega
  rw [h8, align_addr_to_word]
  apply Nat.eq_of_testBit_eq
  intro i
  have hmask : (0xFFFFFFFFFFFFFFF8 : Nat) = (2 ^ 61 - 1) <<< 3 := by
    rw [Nat.shiftLeft_eq]; norm_num
  rw [hmask]
  simp only [Nat.testBit_and, Nat.testBit_shiftLeft, Nat.testBit_shiftRight,
    Nat.testBit_two_pow_sub_one]
  by_cases h3 : 3 ≤ i
  · by_cases h64 : i < 64
    · simp [h3, Nat.add_sub_cancel' h3, show i - 3 < 61 by omega]
    · have hai : a.testBit i = false := high_testBit_eq_false a 64 i ha (by omega)
      have h3i : 3 + (i - 3) = i := by omega
      simp [h3, h3i, hai, show ¬(i - 3 < 61) by omega]
  · simp [h3, show ¬(i ≥ 3) by omega]

theorem align_le (a : Nat) (ha : a < 2 ^ 64) : align_addr_to_word a ≤ a := by
  rw [align_eq_sub_mod a ha]; omega

theorem offset_lt_8 (a : Nat) (ha : a < 2 ^ 64) :
    a - align_addr_to_word a < 8 := by
  rw [align_eq_sub_mod a ha]
  have := Nat.mod_lt a (show 0 < 8 by norm_num)
  omega

theorem align_add_offset (a : Nat) (ha : a < 2 ^ 64) :
    align_addr_to_word a + (a - align_addr_to_word a) = a := by
  rw [align_eq_sub_mod a ha]
  omega

theorem extract_byte_lt (w off : Nat) : extract_byte w off < 256 := by
  have h : extract_byte w off ≤ 0xff := Nat.and_le_right
  omega

theorem splice_word_lt (w off v : Nat) (hv : v < 256) (hoff : off < 8) :
    splice_word w off v < 2 ^ 64 := by
  apply Nat.or_lt_two_pow
  · calc w &&& ((2 ^ 64 - 1) ^^^ (0xff <<< (8 * off))) ≤
        (2 ^ 64 - 1) ^^^ (0xff <<< (8 * off)) := Nat.and_le_right
    _ < 2 ^ 64 := by
        apply Nat.lt_pow_two_of_testBit
        intro i hi
        rw [Nat.testBit_xor, Nat.testBit_two_pow_sub_one, Nat.testBit_shiftLeft]
        have h1 : ¬(i < 64) := by omega
        have h2 : 0xff < 2 ^ (i - 8 * off) := by
          calc (0xff : Nat) < 2 ^ 8 := by norm_num
          _ ≤ 2 ^ (i - 8 * off) := Nat.pow_le_pow_right (by norm_num) (by omega)
        simp [h1, Nat.testBit_lt_two_pow h2]
  · calc v <<< (8 * off) = v * 2 ^ (8 * off) := Nat.shiftLeft_eq v (8 * off)
    _ < 256 * 2 ^ 56 := by
        apply Nat.mul_lt_mul_of_lt_of_le hv
        · exact Nat.pow_le_pow_right (by norm_num) (by omega)
        · positivity
    _ ≤ 2 ^ 64 := by norm_num

theorem extract_splice_same (w off v : Nat) (hv : v < 256) (hoff : off < 8) :
    extract_byte (splice_word w off v) off = v := by
  apply Nat.eq_of_testBit_eq
  intro i
  have h255 : (0xff : Nat) = 2 ^ 8 - 1 := by norm_num
  rw [extract_byte, splice_word, h255]
  simp only [Nat.testBit_and, Nat.testBit_or, Nat.testBit_xor,
    Nat.testBit_shiftLeft, Nat.testBit_shiftRight, Nat.testBit_two_pow_sub_one]
  by_cases hi : i < 8
  · have hle : 8 * off ≤ 8 * off + i := by omega
    have hlt : 8 * off + i < 64 := by omega
    simp [hle, hlt, hi, Nat.add_sub_cancel_left]
  · have hv' : v.testBit i = false :=
      Nat.testBit_lt_two_pow (by
        calc v < 256 := hv
        _ ≤ 2 ^ i := by
            calc (256 : Nat) = 2 ^ 8 := by norm_num
            _ ≤ 2 ^ i := Nat.pow_le_pow_right (by norm_num) (by omega))
    simp [hi, hv']

theorem extract_splice_other (w off v off' : Nat) (hw : w < 2 ^ 64)
    (hv : v < 256) (hoff : off < 8) (hoff' : off' < 8) (hne : off' ≠ off) :
    extract_byte (splice_word w off v) off' = extract_byte w off' := by
  apply Nat.eq_of_testBit_eq
  intro i
  have h255 : (0xff : Nat) = 2 ^ 8 - 1 := by norm_num
  rw [extract_byte, extract_byte, splice_word, h255]
  simp only [Nat.testBit_and, Nat.testBit_or, Nat.testBit_xor,
    Nat.testBit_shiftLeft, Nat.testBit_shiftRight, Nat.testBit_two_pow_sub_one]
  by_cases hi : i < 8
  · -- the probed bit `8 * off' + i` lies outside the spliced byte
    have hlt64 : 8 * off' + i < 64 := by omega
    by_cases hcmp : off < off'
    · have h : ¬(8 * off' + i - 8 * off < 8) := by omega
      have hsl : 8 * off ≤ 8 * off' + i := by omega
      have hvhi : v.testBit (8 * off' + i - 8 * off) = false :=
        high_testBit_eq_false v 8 _ (by calc v < 256 := hv
                                          _ = 2 ^ 8 := by norm_num) (by omega)
      simp [hsl, h, hlt64, hi, hvhi]
    · have h : ¬(8 * off ≤ 8 * off' + i) := by omega
      simp [h, hlt64, hi, show ¬(8 * off' + i ≥ 8 * off) from h]
  · simp [hi]

theorem splice_extract_roundtrip (w off v : Nat) (hw : w < 2 ^ 64)
    (hv : v < 256) (hoff : off < 8) :
    splice_word (splice_word w off v) off (extract_byte w off) = w := by
  apply Nat.eq_of_testBit_eq
  intro i
  by_cases h64 : i < 64
  · have h255 : (0xff : Nat) = 2 ^ 8 - 1 := by norm_num
    rw [splice_word, splice_word, extract_byte, h255]
    simp only [Nat.testBit_and, Nat.testBit_or, Nat.testBit_xor,
      Nat.testBit_shiftLeft, Nat.testBit_shiftRight, Nat.testBit_two_pow_sub_one]
    by_cases hin : 8 * off ≤ i ∧ i - 8 * off < 8
    · -- inside the spliced byte: the restored byte wins
      have hge : i ≥ 8 * off := hin.1
      simp [hge, hin.1, hin.2, h64, Nat.add_sub_cancel' hin.1]
    · -- outside the spliced byte: the masked word is untouched
      by_cases hge : 8 * off ≤ i
      · have hnotlt : ¬(i - 8 * off < 8) := by
          intro hcon; exact hin ⟨hge, hcon⟩
        have hvhi : v.testBit (i - 8 * off) = false :=
          high_testBit_eq_false v 8 _ (by calc v < 256 := hv
                                            _ = 2 ^ 8 := by norm_num) (by omega)
        simp [hge, hnotlt, h64, hvhi]
      · simp [hge, h64, show ¬(i ≥ 8 * off) from hge]
  · have hwi : w.testBit i = false := high_testBit_eq_false w 64 i hw (by omega)
    have hL : splice_word (splice_word w off v) off (extract_byte w off) < 2 ^ 64 :=
      splice_word_lt _ _ _ (extract_byte_lt w off) hoff
    rw [hwi, high_testBit_eq_false _ 64 i hL (by omega)]

theorem write_byte_some_elim (mem : Mem) (addr val : Nat) (m2 : Mem) (b : Nat)
    (h : write_byte mem addr val = some (m2, b)) :
    ∃ w, mem (align_addr_to_word addr) = some w ∧
      b = extract_byte w (addr - align_addr_to_word addr) ∧
      m2 = fun k => if k = align_addr_to_word addr
                    then some (splice_word w (addr - align_addr_to_word addr) val)
                    else mem k := by
  cases hm : mem (align_addr_to_word addr) with
  | none =>
      rw [write_byte] at h
      simp only [hm] at h
      exact Option.noConfusion h
  | some w =>
      refine ⟨w, rfl, ?_⟩
      rw [write_byte] at h
      simp only [hm, Option.some.injEq, Prod.mk.injEq] at h
      exact ⟨h.2.symm, h.1.symm⟩

theorem write_byte_eq_of_read (mem : Mem) (addr val w : Nat)
    (h : mem (align_addr_to_word addr) = some w) :
    write_byte mem addr val = some
      (fun k => if k = align_addr_to_word addr
                then some (splice_word w (addr - align_addr_to_word addr) val)
                else mem k,
       extract_byte w (addr - align_addr_to_word addr)) := by
  rw [write_byte]
  simp only [h]
  rfl

theorem write_byte_none_iff (mem : Mem) (addr val : Nat) :
    write_byte mem addr val = none ↔ mem (align_addr_to_word addr) = none := by
  rw [write_byte]
  cases hm : mem (align_addr_to_word addr) <;> simp [hm]

theorem write_byte_isSome (mem : Mem) (addr val : Nat) :
    (write_byte mem addr val).isSome = (mem (align_addr_to_word addr)).isSome := by
  rw [write_byte]
  cases hm : mem (align_addr_to_word addr) <;> simp [hm]

theorem readByte_of_read (mem : Mem) (addr w : Nat)
    (h : mem (align_addr_to_word addr) = some w) :
    readByte mem addr = some (extract_byte w (addr - align_addr_to_word addr)) := by
  rw [readByte, h, extract_byte]
  rfl

theorem write_byte_returns_prior (mem : Mem) (addr val : Nat) (m2 : Mem) (b : Nat)
    (h : write_byte mem addr val = some (m2, b)) :
    readByte mem addr = some b := by
  obtain ⟨w, hw, hb, _⟩ := write_byte_some_elim mem addr val m2 b h
  rw [readByte_of_read mem addr w hw, hb]

theorem readByte_write_byte_same (mem : Mem) (addr val : Nat) (m2 : Mem) (b : Nat)
    (hwf : MemWf mem) (ha : addr < 2 ^ 64) (hv : val < 256)
    (h : write_byte mem addr val = some (m2, b)) :
    readByte m2 addr = some val := by
  obtain ⟨w, hw, _, hm2⟩ := write_byte_some_elim mem addr val m2 b h
  have hkey : m2 (align_addr_to_word addr) =
      some (splice_word w (addr - align_addr_to_word addr) val) := by
    rw [hm2]; simp
  rw [readByte_of_read m2 addr _ hkey,
    extract_splice_same w (addr - align_addr_to_word addr) val hv
      (offset_lt_8 addr ha)]

theorem readByte_write_byte_other (mem : Mem) (addr val : Nat) (m2 : Mem) (b : Nat)
    (a' : Nat) (hwf : MemWf mem) (ha : addr < 2 ^ 64) (ha' : a' < 2 ^ 64)
    (hv : val < 256) (hne : a' ≠ addr)
    (h : write_byte mem addr val = some (m2, b)) :
    readByte m2 a' = readByte mem a' := by
  obtain ⟨w, hw, _, hm2⟩ := write_byte_some_elim mem addr val m2 b h
  by_cases halign : align_addr_to_word a' = align_addr_to_word addr
  · -- same word, necessarily a different byte offset
    have hoffne : a' - align_addr_to_word a' ≠ addr - align_addr_to_word addr := by
      intro hcon
      apply hne
      have h1 := align_add_offset a' ha'
      have h2 := align_add_offset addr ha
      omega
    have hkey : m2 (align_addr_to_word a') =
        some (splice_word w (addr - align_addr_to_word addr) val) := by
      rw [hm2]; simp [halign]
    rw [readByte_of_read m2 a' _ hkey,
      readByte_of_read mem a' w (by rw [halign]; exact hw)]
    congr 1
    exact extract_splice_other w (addr - align_addr_to_word addr) val
      (a' - align_addr_to_word a') (hwf _ _ hw) hv (offset_lt_8 addr ha)
      (offset_lt_8 a' ha') hoffne
  · have hkey : m2 (align_addr_to_word a') = mem (align_addr_to_word a') := by
      rw [hm2]; simp [halign]
    rw [readByte, readByte, hkey]

theorem write_byte_isSome_pointwise (mem : Mem) (addr val : Nat) (m2 : Mem)
    (b : Nat) (h : write_byte mem addr val = some (m2, b)) :
    ∀ x, (m2 x).isSome = (mem x).isSome := by
  obtain ⟨w, hw, _, hm2⟩ := write_byte_some_elim mem addr val m2 b h
  intro x
  rw [hm2]
  by_cases hx : x = align_addr_to_word addr
  · simp [hx, hw]
  · simp [hx]

theorem MemWf_write_byte (mem : Mem) (addr val : Nat) (m2 : Mem) (b : Nat)
    (hwf : MemWf mem) (ha : addr < 2 ^ 64) (hv : val < 256)
    (h : write_byte mem addr val = some (m2, b)) :
    MemWf m2 := by
  obtain ⟨w, hw, _, hm2⟩ := write_byte_some_elim mem addr val m2 b h
  intro x u hx
  rw [hm2] at hx
  by_cases hxa : x = align_addr_to_word addr
  · simp only [hxa, if_true, eq_self_iff_true, Option.some.injEq] at hx
    rw [← hx]
    exact splice_word_lt w _ val hv (offset_lt_8 addr ha)
  · simp only [if_neg hxa] at hx
    exact hwf x u hx

theorem lookup_set_orig_byte_self (reg : Registry) (k b : Nat) :
    List.lookup k (set_orig_byte reg k b) =
      (List.lookup k reg).map (fun r => (⟨r.addr, b⟩ : Breakpoint)) := by
  induction reg with
  | nil => simp [set_orig_byte]
  | cons p t ih =>
      obtain ⟨a, bp⟩ := p
      rw [set_orig_byte] at ih ⊢
      by_cases hp : a = k
      · subst hp
        rw [List.map_cons, if_pos (show (a, bp).1 = a from rfl)]
        simp [List.lookup]
      · simp only [List.map_cons]
        rw [if_neg hp]
        simp only [List.lookup, show (k == a) = false by simp [Ne.symm hp]]
        exact ih

theorem lookup_set_orig_byte_other (reg : Registry) (k k' b : Nat)
    (hne : k' ≠ k) :
    List.lookup k' (set_orig_byte reg k b) = List.lookup k' reg := by
  induction reg with
  | nil => simp [set_orig_byte]
  | cons p t ih =>
      obtain ⟨a, bp⟩ := p
      rw [set_orig_byte] at ih ⊢
      by_cases hp : a = k
      · subst hp
        simp only [List.map_cons, if_pos rfl]
        simp only [List.lookup, show (k' == a) = false by simp [hne]]
        exact ih
      · simp only [List.map_cons, if_neg hp]
        by_cases hk' : k' = a
        · simp [List.lookup, hk']
        · simp only [List.lookup, show (k' == a) = false by simp [hk']]
          exact ih

theorem lookup_of_mem_nodup (reg : Registry) (p : Nat × Breakpoint)
    (hnd : keys_nodup reg) (hp : p ∈ reg) :
    List.lookup p.1 reg = some p.2 := by
  induction reg with
  | nil => cases hp
  | cons q t ih =>
      rw [keys_nodup, List.map_cons, List.nodup_cons] at hnd
      cases hp with
      | head => simp [List.lookup]
      | tail _ hmem =>
          have hne : p.1 ≠ q.1 := by
            intro hcon
            exact hnd.1 (hcon ▸ List.mem_map_of_mem Prod.fst hmem)
          obtain ⟨a, bp⟩ := q
          simp only [List.lookup, show (p.1 == a) = false by simp [hne]]
          exact ih hnd.2 hmem

theorem arm_step_isSome_pointwise (st : Mem × Registry) (b : Nat × Breakpoint) :
    ∀ x, ((arm_step st b).1 x).isSome = (st.1 x).isSome := by
  intro x
  rw [arm_step]
  cases hwb : write_byte st.1 b.1 0xcc with
  | none => rfl
  | some r =>
      obtain ⟨m2, ob⟩ := r
      exact write_byte_isSome_pointwise st.1 b.1 0xcc m2 ob hwb x

theorem arm_step_wf (st : Mem × Registry) (b : Nat × Breakpoint)
    (hwf : MemWf st.1) (hb : b.1 < 2 ^ 64) : MemWf (arm_step st b).1 := by
  rw [arm_step]
  cases hwb : write_byte st.1 b.1 0xcc with
  | none => exact hwf
  | some r =>
      obtain ⟨m2, ob⟩ := r
      exact MemWf_write_byte st.1 b.1 0xcc m2 ob hwf hb (by norm_num) hwb

theorem arm_step_readByte_other (st : Mem × Registry) (b : Nat × Breakpoint)
    (a' : Nat) (hwf : MemWf st.1) (hb : b.1 < 2 ^ 64) (ha' : a' < 2 ^ 64)
    (hne : a' ≠ b.1) :
    readByte (arm_step st b).1 a' = readByte st.1 a' := by
  rw [arm_step]
  cases hwb : write_byte st.1 b.1 0xcc with
  | none => rfl
  | some r =>
      obtain ⟨m2, ob⟩ := r
      exact readByte_write_byte_other st.1 b.1 0xcc m2 ob a' hwf hb ha'
        (by norm_num) hne hwb

theorem arm_step_lookup_other (st : Mem × Registry) (b : Nat × Breakpoint)
    (k : Nat) (hne : k ≠ b.1) :
    List.lookup k (arm_step st b).2 = List.lookup k st.2 := by
  rw [arm_step]
  cases hwb : write_byte st.1 b.1 0xcc with
  | none => rfl
  | some r =>
      obtain ⟨m2, ob⟩ := r
      exact lookup_set_orig_byte_other st.2 b.1 k ob hne

theorem arm_step_hit (st : Mem × Registry) (b : Nat × Breakpoint)
    (hwf : MemWf st.1) (hb : b.1 < 2 ^ 64)
    (hmap : (st.1 (align_addr_to_word b.1)).isSome) :
    readByte (arm_step st b).1 b.1 = some 0xcc ∧
    ∃ ob, readByte st.1 b.1 = some ob ∧
      List.lookup b.1 (arm_step st b).2 =
        (List.lookup b.1 st.2).map (fun r => (⟨r.addr, ob⟩ : Breakpoint)) := by
  cases hwb : write_byte st.1 b.1 0xcc with
  | none =>
      rw [write_byte_none_iff] at hwb
      rw [hwb] at hmap
      cases hmap
  | some r =>
      obtain ⟨m2, ob⟩ := r
      have hstep : arm_step st b = (m2, set_orig_byte st.2 b.1 ob) := by
        rw [arm_step, hwb]
      rw [hstep]
      refine ⟨readByte_write_byte_same st.1 b.1 0xcc m2 ob hwf hb (by norm_num) hwb,
        ob, write_byte_returns_prior st.1 b.1 0xcc m2 ob hwb, ?_⟩
      exact lookup_set_orig_byte_self st.2 b.1 ob

theorem arm_fold_spec (todo : List (Nat × Breakpoint)) :
    ∀ (mem : Mem) (racc : Registry),
    MemWf mem → (∀ p ∈ todo, p.1 < 2 ^ 64) → (todo.map Prod.fst).Nodup →
    (∀ x, ((todo.foldl arm_step (mem, racc)).1 x).isSome = (mem x).isSome) ∧
    MemWf (todo.foldl arm_step (mem, racc)).1 ∧
    (∀ a', a' < 2 ^ 64 → a' ∉ todo.map Prod.fst →
        readByte (todo.foldl arm_step (mem, racc)).1 a' = readByte mem a') ∧
    (∀ k, k ∉ todo.map Prod.fst →
        List.lookup k (todo.foldl arm_step (mem, racc)).2 = List.lookup k racc) ∧
    (∀ p ∈ todo, (mem (align_addr_to_word p.1)).isSome →
        readByte (todo.foldl arm_step (mem, racc)).1 p.1 = some 0xcc ∧
        ∃ ob, readByte mem p.1 = some ob ∧
          List.lookup p.1 (todo.foldl arm_step (mem, racc)).2 =
            (List.lookup p.1 racc).map (fun r => (⟨r.addr, ob⟩ : Breakpoint))) := by
  induction todo with
  | nil => intro mem racc hwf _ _; exact ⟨fun _ => rfl, hwf, fun _ _ _ => rfl,
      fun _ _ => rfl, fun p hp => absurd hp (List.not_mem_nil p)⟩
  | cons b t ih =>
      intro mem racc hwf hlt hnd
      rw [List.map_cons, List.nodup_cons] at hnd
      have hb : b.1 < 2 ^ 64 := hlt b (List.mem_cons_self b t)
      have hlt' : ∀ p ∈ t, p.1 < 2 ^ 64 := fun p hp => hlt p (List.mem_cons_of_mem b hp)
      set st1 := arm_step (mem, racc) b with hst1
      have hwf1 : MemWf st1.1 := arm_step_wf (mem, racc) b hwf hb
      have hfold : (b :: t).foldl arm_step (mem, racc) = t.foldl arm_step st1 := by
        rw [List.foldl_cons]
      obtain ⟨ih1, ih2, ih3, ih4, ih5⟩ := ih st1.1 st1.2 hwf1 hlt' hnd.2
      have hsome1 : ∀ x, (st1.1 x).isSome = (mem x).isSome :=
        arm_step_isSome_pointwise (mem, racc) b
      have hfoldpair : t.foldl arm_step st1 = t.foldl arm_step (st1.1, st1.2) := by
        rw [Prod.mk.eta]
      rw [hfold, hfoldpair]
      refine ⟨?_, ih2, ?_, ?_, ?_⟩
      · intro x; rw [ih1 x, hsome1 x]
      · intro a' ha' hnotin
        rw [List.map_cons] at hnotin
        have hna : a' ≠ b.1 := fun hcon => hnotin (hcon ▸ List.mem_cons_self _ _)
        have hnt : a' ∉ t.map Prod.fst := fun hcon => hnotin (List.mem_cons_of_mem _ hcon)
        rw [ih3 a' ha' hnt]
        exact arm_step_readByte_other (mem, racc) b a' hwf hb ha' hna
      · intro k hnotin
        rw [List.map_cons] at hnotin
        have hna : k ≠ b.1 := fun hcon => hnotin (hcon ▸ List.mem_cons_self _ _)
        have hnt : k ∉ t.map Prod.fst := fun hcon => hnotin (List.mem_cons_of_mem _ hcon)
        rw [ih4 k hnt]
        exact arm_step_lookup_other (mem, racc) b k hna
      · intro p hp hmap
        cases hp with
        | head =>
            have hbk : b.1 ∉ t.map Prod.fst := hnd.1
            obtain ⟨hhit, ob, hob, hlk⟩ := arm_step_hit (mem, racc) b hwf hb hmap
            refine ⟨?_, ob, hob, ?_⟩
            · rw [ih3 b.1 hb hbk]; exact hhit
            · rw [ih4 b.1 hbk]; exact hlk
        | tail _ hmem =>
            have hpk : p.1 ≠ b.1 := by
              intro hcon
              exact hnd.1 (hcon ▸ List.mem_map_of_mem Prod.fst hmem)
            have hp64 : p.1 < 2 ^ 64 := hlt' p hmem
            have hmap1 : (st1.1 (align_addr_to_word p.1)).isSome := by
              rw [hsome1]; exact hmap
            obtain ⟨hhit, ob, hob, hlk⟩ := ih5 p hmem hmap1
            refine ⟨hhit, ob, ?_, ?_⟩
            · rw [← hob]
              exact (arm_step_readByte_other (mem, racc) b p.1 hwf hb hp64 hpk).symm
            · rw [hlk, arm_step_lookup_other (mem, racc) b p.1 hpk]

theorem arm_all_armed (mem : Mem) (reg : Registry) (hwf : MemWf mem)
    (hlt : keys_lt reg) (hnd : keys_nodup reg) (p : Nat × Breakpoint)
    (hp : p ∈ reg) (hmap : (mem (align_addr_to_word p.1)).isSome) :
    readByte (arm_all mem reg).1 p.1 = some 0xcc ∧
    ∃ b, readByte mem p.1 = some b ∧
      List.lookup p.1 (arm_all mem reg).2 = some ⟨p.2.addr, b⟩ := by
  obtain ⟨_, _, _, _, h5⟩ := arm_fold_spec reg mem reg hwf hlt hnd
  obtain ⟨hhit, ob, hob, hlk⟩ := h5 p hp hmap
  refine ⟨hhit, ob, hob, ?_⟩
  rw [arm_all] at *
  rw [hlk, lookup_of_mem_nodup reg p hnd hp]
  rfl

theorem inferior_new_some_elim (sp : Bool) (w : Option Status) (mem : Mem)
    (reg : Registry) (mem2 : Mem) (reg2 : Registry)
    (h : inferior_new sp w mem reg = some (mem2, reg2)) :
    sp = true ∧ (∃ ip, w = some (Status.Stopped Signal.SIGTRAP ip)) ∧
      arm_all mem reg = (mem2, reg2) := by
  cases sp with
  | false =>
      exact Option.noConfusion
        (show (none : Option (Mem × Registry)) = some (mem2, reg2) from h)
  | true =>
      cases w with
      | none =>
          exact Option.noConfusion
            (show (none : Option (Mem × Registry)) = some (mem2, reg2) from h)
      | some s =>
          cases s with
          | Stopped sig ip =>
              cases sig with
              | SIGTRAP =>
                  refine ⟨rfl, ⟨ip, rfl⟩, ?_⟩
                  exact Option.some.inj
                    (show some (arm_all mem reg) = some (mem2, reg2) from h)
              | other n =>
                  exact Option.noConfusion
                    (show (none : Option (Mem × Registry)) = some (mem2, reg2) from h)
          | Exited c =>
              exact Option.noConfusion
                (show (none : Option (Mem × Registry)) = some (mem2, reg2) from h)
          | Signaled s2 =>
              exact Option.noConfusion
                (show (none : Option (Mem × Registry)) = some (mem2, reg2) from h)

theorem keys_nodup_rInsert (reg : Registry) (k : Nat) (v : Breakpoint)
    (hnd : keys_nodup reg) : keys_nodup (rInsert reg k v) := by
  rw [keys_nodup, rInsert, List.map_cons, List.nodup_cons]
  constructor
  · intro hmem
    obtain ⟨p, hpmem, hpk⟩ := List.mem_map.mp hmem
    have := (List.mem_filter.mp hpmem).2
    simp only [bne_iff_ne, ne_eq] at this
    exact this hpk
  · exact List.Nodup.sublist
      (List.Sublist.map Prod.fst (List.filter_sublist reg)) hnd

theorem keys_lt_rInsert (reg : Registry) (k : Nat) (v : Breakpoint)
    (hlt : keys_lt reg) (hk : k < 2 ^ 64) : keys_lt (rInsert reg k v) := by
  intro p hp
  rw [rInsert] at hp
  cases hp with
  | head => exact hk
  | tail _ hmem => exact hlt p (List.mem_of_mem_filter hmem)

theorem lookup_rInsert_self (reg : Registry) (k : Nat) (v : Breakpoint) :
    List.lookup k (rInsert reg k v) = some v := by
  rw [rInsert]
  simp [List.lookup]

theorem demoMem_wf : MemWf demoMem := by
  intro a w h
  rw [demoMem] at h
  split at h
  · have := Option.some.inj h
    omega
  · exact Option.noConfusion h

/-- C1: the claim states that after the repair steps of the continue
protocol, the breakpoint is re-armed (the trap byte `0xCC` written back and
`orig_byte` refreshed) before the final continue.  The code contradicts
this: with the breakpoint at 4096 registered (saved byte `0x90`) and the
tracee stopped at `rip = 4097`, the repair branch runs, and the memory
handed to the final `ptrace::cont` holds the restored byte `0x90` -- not
`0xCC` -- at 4096.  `Inferior::cont` contains no second `write_byte`, and it
receives the registry by shared reference, so no re-arming or `orig_byte`
update is even possible before the continue. -/
theorem c1_cont_never_rearms :
    (cont_repair demoMem demoBps 4097).map
      (fun r => (readByte r.1 4096, r.2)) = some (some 0x90, true) := by
  decide

/-- C2 counterexample: the claim asserts that whenever the handle is
returned, every breakpoint already in the registry is armed and its
`orig_byte` updated.  With a registry entry at address 8 whose containing
word is unmapped in the tracee, `Inferior::new` still returns the handle
(the failed `write_byte` is only printed), the byte at 8 is unreadable
rather than `0xCC`, and the record keeps its placeholder `orig_byte = 0`. -/
theorem c2_spawn_arm_failure_counterexample :
    (inferior_new true (some (Status.Stopped Signal.SIGTRAP 4096)) zeroOnlyMem
        unarmedReg).map
      (fun r => (readByte r.1 8, List.lookup 8 r.2)) =
      some (none, some ⟨8, 0⟩) := by
  decide

/-- C2 (amended): `Inferior::new` returns a tracee handle if and only if the
spawn succeeded and the single initial wait reports `Stopped` with `SIGTRAP`;
in that case the arming loop runs over the whole registry before the handle
is returned, and every breakpoint whose trap-byte write succeeds (its
containing word is mapped) ends up armed -- trap byte `0xCC` present,
`orig_byte` refreshed from the byte previously there -- while a failing
write is only reported.  In every other case no tracee handle is retained. -/
theorem c2_spawn_iff_and_arms (sp : Bool) (w : Option Status) (mem : Mem)
    (reg : Registry) (hwf : MemWf mem) (hlt : keys_lt reg)
    (hnd : keys_nodup reg) :
    ((inferior_new sp w mem reg).isSome ↔
      sp = true ∧ ∃ ip, w = some (Status.Stopped Signal.SIGTRAP ip)) ∧
    (∀ mem2 reg2, inferior_new sp w mem reg = some (mem2, reg2) →
      ∀ p ∈ reg, (mem (align_addr_to_word p.1)).isSome →
        readByte mem2 p.1 = some 0xcc ∧
        ∃ b, readByte mem p.1 = some b ∧
          List.lookup p.1 reg2 = some ⟨p.2.addr, b⟩) := by
  constructor
  · constructor
    · intro hs
      obtain ⟨r, hres⟩ := Option.isSome_iff_exists.mp hs
      obtain ⟨mem2, reg2⟩ := r
      obtain ⟨h1, h2, _⟩ := inferior_new_some_elim sp w mem reg mem2 reg2 hres
      exact ⟨h1, h2⟩
    · rintro ⟨hsp, ip, hw⟩
      subst hsp
      subst hw
      exact rfl
  · intro mem2 reg2 hres p hp hmap
    obtain ⟨_, _, harm⟩ := inferior_new_some_elim sp w mem reg mem2 reg2 hres
    have hout := arm_all_armed mem reg hwf hlt hnd p hp hmap
    rw [harm] at hout
    exact hout

/-- Witness for C2 at a concrete spawn: registry holding the breakpoint at
4096, tracee memory mapping that word. -/
theorem c2_spawn_iff_and_arms_witness :
    ((inferior_new true (some (Status.Stopped Signal.SIGTRAP 7)) demoMem
        demoBps).isSome ↔
      true = true ∧ ∃ ip, some (Status.Stopped Signal.SIGTRAP 7) =
        some (Status.Stopped Signal.SIGTRAP ip)) ∧
    (∀ mem2 reg2, inferior_new true (some (Status.Stopped Signal.SIGTRAP 7))
        demoMem demoBps = some (mem2, reg2) →
      ∀ p ∈ demoBps, (demoMem (align_addr_to_word p.1)).isSome →
        readByte mem2 p.1 = some 0xcc ∧
        ∃ b, readByte demoMem p.1 = some b ∧
          List.lookup p.1 reg2 = some ⟨p.2.addr, b⟩) :=
  c2_spawn_iff_and_arms true (some (Status.Stopped Signal.SIGTRAP 7)) demoMem
    demoBps demoMem_wf (by unfold keys_lt demoBps; decide)
    (by unfold keys_nodup demoBps; decide)

/-- C3: the claim states that at `ip = 0` the `ip - 1` check does not
underflow and the stop is treated as not being at a breakpoint, with the
repair steps skipped.  The source has no such guard: `rip - 1` on a `usize`
underflows (aborting a debug build; wrapping to `2 ^ 64 - 1` in release),
and with a breakpoint registered at address `0xFFFFFFFFFFFFFFFF` the repair
branch runs at `ip = 0` instead of being skipped. -/
theorem c3_ip_zero_underflows :
    (cont_repair wrapMem wrapBps 0).map Prod.snd = some true := by
  decide

/-- C4: for every successful `write_byte(a, v)` returning byte `b`, an
immediately following `write_byte(a, b)` succeeds, returns `v`, and restores
the tracee memory exactly: the pair of calls is a no-op on memory. -/
theorem c4_write_byte_roundtrip (mem : Mem) (a v : Nat) (m1 : Mem) (b : Nat)
    (hwf : MemWf mem) (ha : a < 2 ^ 64) (hv : v < 256)
    (h : write_byte mem a v = some (m1, b)) :
    write_byte m1 a b = some (mem, v) := by
  obtain ⟨w, hw, hb, hm1⟩ := write_byte_some_elim mem a v m1 b h
  have hoff := offset_lt_8 a ha
  have hw64 : w < 2 ^ 64 := hwf _ _ hw
  have hkey : m1 (align_addr_to_word a) =
      some (splice_word w (a - align_addr_to_word a) v) := by
    rw [hm1]; simp
  rw [write_byte_eq_of_read m1 a b _ hkey]
  have hfun : (fun k => if k = align_addr_to_word a
      then some (splice_word (splice_word w (a - align_addr_to_word a) v)
        (a - align_addr_to_word a) b)
      else m1 k) = mem := by
    funext k
    by_cases hk : k = align_addr_to_word a
    · rw [if_pos hk, hb,
        splice_extract_roundtrip w (a - align_addr_to_word a) v hw64 hv hoff,
        hk, hw]
    · rw [if_neg hk, hm1]
      simp [hk]
  rw [hfun,
    extract_splice_same w (a - align_addr_to_word a) v hv hoff]

/-- Witness for C4: writing `0x90` over the trap byte at 4096 and writing
the returned byte back restores the demo memory exactly. -/
theorem c4_write_byte_roundtrip_witness :
    ∃ m1 b, write_byte demoMem 4096 0x90 = some (m1, b) ∧
      write_byte m1 4096 b = some (demoMem, 0x90) := by
  rcases hres : write_byte demoMem 4096 0x90 with _ | ⟨m1, b⟩
  · have hs : (write_byte demoMem 4096 0x90).isSome = true := rfl
    rw [hres] at hs
    exact Bool.noConfusion hs
  · exact ⟨m1, b, rfl,
      c4_write_byte_roundtrip demoMem 4096 0x90 m1 b demoMem_wf
        (by norm_num) (by norm_num) hres⟩

/-- C5: a breakpoint set while no tracee exists (placeholder
`orig_byte = 0`) survives a subsequent `run`: after `Inferior::new` spawns a
new tracee stopped at the initial `SIGTRAP`, the trap byte is armed at the
address in the new tracee and the record's `orig_byte` is refreshed from the
byte found there. -/
theorem c5_breakpoints_survive_run (reg0 : Registry) (A : Nat) (mem : Mem)
    (ip : Nat) (hwf : MemWf mem) (hA : A < 2 ^ 64) (hlt : keys_lt reg0)
    (hnd : keys_nodup reg0)
    (hmap : (mem (align_addr_to_word A)).isSome) :
    ∃ mem2 reg2,
      inferior_new true (some (Status.Stopped Signal.SIGTRAP ip)) mem
        (break_no_tracee reg0 A) = some (mem2, reg2) ∧
      readByte mem2 A = some 0xcc ∧
      ∃ b, readByte mem A = some b ∧ List.lookup A reg2 = some ⟨A, b⟩ := by
  have hlt1 : keys_lt (break_no_tracee reg0 A) :=
    keys_lt_rInsert reg0 A ⟨A, 0⟩ hlt hA
  have hnd1 : keys_nodup (break_no_tracee reg0 A) :=
    keys_nodup_rInsert reg0 A ⟨A, 0⟩ hnd
  have hmem : (A, (⟨A, 0⟩ : Breakpoint)) ∈ break_no_tracee reg0 A :=
    List.mem_cons_self _ _
  have harm := arm_all_armed mem (break_no_tracee reg0 A) hwf hlt1 hnd1
    (A, ⟨A, 0⟩) hmem hmap
  refine ⟨(arm_all mem (break_no_tracee reg0 A)).1,
    (arm_all mem (break_no_tracee reg0 A)).2, ?_, harm.1, harm.2⟩
  rw [show inferior_new true (some (Status.Stopped Signal.SIGTRAP ip)) mem
      (break_no_tracee reg0 A) =
      some (arm_all mem (break_no_tracee reg0 A)) from rfl, Prod.mk.eta]

/-- Witness for C5: `br` at 4096 with no tracee, then a spawn whose initial
wait stops with `SIGTRAP`. -/
theorem c5_breakpoints_survive_run_witness :
    ∃ mem2 reg2,
      inferior_new true (some (Status.Stopped Signal.SIGTRAP 0)) demoMem
        (break_no_tracee [] 4096) = some (mem2, reg2) ∧
      readByte mem2 4096 = some 0xcc ∧
      ∃ b, readByte demoMem 4096 = some b ∧
        List.lookup 4096 reg2 = some ⟨4096, b⟩ :=
  c5_breakpoints_survive_run [] 4096 demoMem 0 demoMem_wf (by norm_num)
    (by simp [keys_lt]) (by simp [keys_nodup]) (by decide)

/-- C6: `parse_address` tries the raw-address form first (a token whose
lowercasing begins with `*0x` is parsed in base 16 from its fourth byte),
then the decimal form (resolved as a source line through the oracle), and
otherwise resolves the trimmed token as a function name through the oracle;
when resolution yields no address the `Break` command changes nothing. -/
theorem c6_parse_address_dispatch (dd : DwarfData) (s : String) :
    (begins_with "*0x".data (to_lowercase s).data = true →
        parse_address dd s = from_str_radix_16 (str_drop s 3)) ∧
    (begins_with "*0x".data (to_lowercase s).data = false →
      ∀ n, parse_usize s = some n →
        parse_address dd s = dd.get_addr_for_line none n) ∧
    (begins_with "*0x".data (to_lowercase s).data = false →
      parse_usize s = none →
        parse_address dd s = dd.get_addr_for_function none (str_trim s)) ∧
    (∀ mem has_inf reg, parse_address dd s = none →
        break_command dd mem has_inf reg s = (mem, reg)) := by
  refine ⟨?_, ?_, ?_, ?_⟩
  · intro h
    rw [parse_address, if_pos h]
  · intro h n hn
    rw [parse_address, if_neg (by simp [h]), hn]
  · intro h hn
    rw [parse_address, if_neg (by simp [h]), hn]
  · intro mem hi reg h
    rw [break_command, h]

/-- Witness for C6: all three dispatch forms and the no-change-on-failure
behaviour at concrete tokens (`*0X1A`, `17`, `foo`, `bar`). -/
theorem c6_parse_address_dispatch_witness :
    parse_address demoDwarf "*0X1A" = some 26 ∧
    parse_address demoDwarf "17" = some 4242 ∧
    parse_address demoDwarf "foo" = some 5150 ∧
    break_command demoDwarf demoMem true [] "bar" = (demoMem, []) := by
  refine ⟨?_, ?_, ?_, ?_⟩
  · rw [(c6_parse_address_dispatch demoDwarf "*0X1A").1 (by decide)]
    decide
  · rw [(c6_parse_address_dispatch demoDwarf "17").2.1 (by decide) 17 (by decide)]
    decide
  · rw [(c6_parse_address_dispatch demoDwarf "foo").2.2.1 (by decide) (by decide)]
    decide
  · exact (c6_parse_address_dispatch demoDwarf "bar").2.2.2 demoMem true []
      (by decide)

/-- C7 counterexample: the claim states the status report prints the three
source lines centered on the resolved line `n`, i.e. lines `n - 1`, `n`,
`n + 1`.  With a four-line source file and a stop resolving to line 2, the
code prints `["L2", "L3", "L4"]` -- the window starting at line 2 -- which
differs from the claimed centered window `["L1", "L2", "L3"]` (source lines
1, 2, 3). -/
theorem c7_center_window_counterexample :
    print_child_status lineDwarf demoLines (Status.Stopped Signal.SIGTRAP 100) =
      Report.stopped Signal.SIGTRAP ⟨"t.c", 2⟩ "main" ["L2", "L3", "L4"] ∧
    ["L2", "L3", "L4"] ≠ List.filterMap (source_line demoLines) [1, 2, 3] := by
  constructor
  · decide
  · decide

/-- C7 (amended): for a resolved line number `n ≥ 1`, the nearby-lines
window printed by the status report consists of source lines `n`, `n + 1`
and `n + 2` (those that exist): the vector of file lines is 0-indexed while
`n` is 1-based, so the window starts at line `n` instead of being centered
on it. -/
theorem c7_nearby_window_shifted (tl : List String) (n : Nat) (h1 : 1 ≤ n) :
    print_nearby_line tl n = List.filterMap (source_line tl) [n, n + 1, n + 2] := by
  rw [print_nearby_line,
    show [n - 1, n, n + 1] = List.map (fun k => k - 1) [n, n + 1, n + 2] from
      by simp [Nat.add_sub_cancel],
    List.filterMap_map]
  rfl

/-- Witness for C7's amended window at line 2 of the demo file. -/
theorem c7_nearby_window_shifted_witness :
    print_nearby_line demoLines 2 =
      List.filterMap (source_line demoLines) [2, 3, 4] :=
  c7_nearby_window_shifted demoLines 2 (by norm_num)

/-- C8: the claim states operational failures caused by the tracee --
including unresolvable addresses during backtrace -- are printed and the
prompt continues, the debugger process never terminating.  The code
contradicts this: `print_backtrace` calls `.unwrap()` on both oracle
lookups, so a walk from an address the oracle cannot resolve aborts the
debugger process instead of reporting and continuing (and `Debugger::run`
reacts to a `cont` error after `r` with an explicit abort as well). -/
theorem c8_backtrace_unresolved_aborts :
    print_backtrace demoDwarf deadMem 5 4096 8192 [] =
      BtOutcome.panicked [] := by
  decide

/-- C9: over a stopped tracee whose frames all resolve, the backtrace walk
prints the frame of the current instruction pointer first, advances by
loading the saved return address from `base_pointer + 8` and the saved frame
pointer from `base_pointer`, and stops as soon as the printed function is
`main`: three frames `main → a → b` print exactly `b`, `a`, `main` in that
order. -/
theorem c9_backtrace_three_frames (dd : DwarfData) (peek : Nat → Option Nat)
    (fuel ip0 bp0 ip1 bp1 ip2 bp2 : Nat) (l0 l1 l2 : Line) (fb fa : String)
    (h0l : dd.get_line_from_addr ip0 = some l0)
    (h0f : dd.get_function_from_addr ip0 = some fb) (hfb : fb ≠ "main")
    (hp0r : peek (bp0 + 8) = some ip1) (hp0b : peek bp0 = some bp1)
    (h1l : dd.get_line_from_addr ip1 = some l1)
    (h1f : dd.get_function_from_addr ip1 = some fa) (hfa : fa ≠ "main")
    (hp1r : peek (bp1 + 8) = some ip2) (hp1b : peek bp1 = some bp2)
    (h2l : dd.get_line_from_addr ip2 = some l2)
    (h2f : dd.get_function_from_addr ip2 = some "main") :
    print_backtrace dd peek (fuel + 3) ip0 bp0 [] =
      BtOutcome.ok [(fb, l0), (fa, l1), ("main", l2)] := by
  have e1 : print_backtrace dd peek (fuel + 3) ip0 bp0 [] =
      print_backtrace dd peek (fuel + 2) ip1 bp1 [(fb, l0)] := by
    rw [print_backtrace]
    simp [h0l, h0f, hfb, hp0r, hp0b]
  have e2 : print_backtrace dd peek (fuel + 2) ip1 bp1 [(fb, l0)] =
      print_backtrace dd peek (fuel + 1) ip2 bp2 [(fb, l0), (fa, l1)] := by
    rw [print_backtrace]
    simp [h1l, h1f, hfa, hp1r, hp1b]
  have e3 : print_backtrace dd peek (fuel + 1) ip2 bp2 [(fb, l0), (fa, l1)] =
      BtOutcome.ok [(fb, l0), (fa, l1), ("main", l2)] := by
    rw [print_backtrace]
    simp [h2l, h2f]
  rw [e1, e2, e3]

/-- Witness for C9: the concrete three-frame stack `main → a → b` at
instruction pointers 30, 20, 10. -/
theorem c9_backtrace_three_frames_witness :
    print_backtrace btDwarf btPeek 3 10 1000 [] =
      BtOutcome.ok [("b", ⟨"t.c", 9⟩), ("a", ⟨"t.c", 5⟩),
        ("main", ⟨"t.c", 2⟩)] :=
  c9_backtrace_three_frames btDwarf btPeek 0 10 1000 20 2000 30 3000
    ⟨"t.c", 9⟩ ⟨"t.c", 5⟩ ⟨"t.c", 2⟩ "b" "a"
    (by decide) (by decide) (by decide) (by decide) (by decide)
    (by decide) (by decide) (by decide) (by decide) (by decide)
    (by decide) (by decide)

/-- C10: setting a breakpoint while a tracee exists inserts a registry
record only when the trap-byte write succeeds, with `orig_byte` set to the
byte the write returned; when the write fails both the tracee memory and
the registry are left unchanged. -/
theorem c10_break_write_failure_keeps_registry (mem : Mem) (reg : Registry)
    (a : Nat) :
    (write_byte mem a 0xcc = none → break_with_tracee mem reg a = (mem, reg)) ∧
    (∀ m2 b, write_byte mem a 0xcc = some (m2, b) →
      break_with_tracee mem reg a = (m2, rInsert reg a ⟨a, b⟩) ∧
      List.lookup a (rInsert reg a ⟨a, b⟩) = some ⟨a, b⟩) := by
  refine ⟨?_, ?_⟩
  · intro h
    rw [break_with_tracee, h]
  · intro m2 b h
    refine ⟨?_, lookup_rInsert_self reg a ⟨a, b⟩⟩
    rw [break_with_tracee, h]

/-- Witness for C10: on a tracee where every `ptrace` access fails, the
`Break` command leaves memory and registry untouched. -/
theorem c10_break_write_failure_keeps_registry_witness :
    break_with_tracee deadMem [] 5 = (deadMem, []) :=
  (c10_break_write_failure_keeps_registry deadMem [] 5).1 rfl

end RDB
